import Mathlib

/-!
Verification of the `define` command-line dictionary tool against its
natural-language specification.

The development shallowly embeds the Go sources:
  - `internal/config` (the file also holding `internal/io`): the
    `Configuration` type, the four-source merge (`mergeConfigurations`,
    backed by `mergo.Merge`), runtime construction (`NewFromRuntime`),
    and the JSON marshalling/unmarshalling of configurations;
  - `source/oxford/provider.go`: the Oxford provider's `Provide` and
    `RequiredConfigError`;
  - `source/glosbe/glosbe.go`: the package-level `apiURL` state touched
    by `Define`, and the `apiResult.toResult` normalisation;
  - the `source` result model and its validation, and the registry's
    provider iteration, which are declared by the spec but whose files
    are not part of the sources at hand; those definitions are marked
    `Modelled from the spec:`.

Go machine integers are mapped to `Nat` (with the explicit `2 ^ 64`
bound where `strconv.ParseUint` range-checks); Go maps are mapped to
association lists with insert-replace semantics; fallible Go functions
return `Option`/`Except`.
-/

namespace Define

/-! ## Association lists: the embedding of Go maps and JSON objects -/

/-- Lookup in an association list; the embedding of Go map indexing and of
JSON-object key lookup. -/
def assocLookup {α : Type} : List (String × α) → String → Option α
  | [], _ => none
  | (k, v) :: rest, key => if k = key then some v else assocLookup rest key

/-- Insert-or-replace in an association list; the embedding of a Go map
assignment `m[k] = v`. -/
def mapInsert {α : Type} : List (String × α) → String → α → List (String × α)
  | [], k, v => [(k, v)]
  | (k', v') :: rest, k, v =>
      if k' = k then (k, v) :: rest else (k', v') :: mapInsert rest k v

/-! ## JSON values -/

/-- JSON values, as far as the configuration serialisation needs them:
numbers (only the non-negative `uint` field occurs), strings, and objects. -/
inductive JsonVal : Type where
  | num (n : Nat)
  | str (s : String)
  | obj (kvs : List (String × JsonVal))

/-- A provider configuration, the embedding of a concrete
`registry.Configuration` value: its self-reported JSON key (the Go
`JSONKey()` method) and its exported struct fields together with their
JSON values (`structs.Fields` counts these fields; `json.Marshal` and
`json.Unmarshal` read and write them by name). -/
structure ProviderConfig : Type where
  jsonKey : String
  fields : List (String × JsonVal)

/-! ## The Configuration record (internal/config) -/

/-- The embedding of `config.Configuration`: two exported fields
(`IndentationSize uint`, `PreferredSource string`) and the two private
fields (`providerConfigs map[string]registry.Configuration`, whose
values may be a nil interface, and `configFileLocation string`). -/
structure Configuration : Type where
  IndentationSize : Nat
  PreferredSource : String
  providerConfigs : List (String × Option ProviderConfig)
  configFileLocation : String

/-- The zero value of `Configuration` (`var conf Configuration`). -/
def emptyConfiguration : Configuration :=
  { IndentationSize := 0
    PreferredSource := ""
    providerConfigs := []
    configFileLocation := "" }

/-- The embedding of `mergo.Merge(&dst, src)` on `Configuration`: each
exported zero-valued field of `dst` is filled from `src`; mergo does not
merge unexported (private) fields, so `providerConfigs` and
`configFileLocation` are left as they are in `dst`. With struct
arguments of the same type mergo cannot return an error, so the
embedding is total. -/
def mergoMerge (dst src : Configuration) : Configuration :=
  { IndentationSize :=
      if dst.IndentationSize = 0 then src.IndentationSize else dst.IndentationSize
    PreferredSource :=
      if dst.PreferredSource = "" then src.PreferredSource else dst.PreferredSource
    providerConfigs := dst.providerConfigs
    configFileLocation := dst.configFileLocation }

/-- The embedding of `mergeConfigurations`: fold `mergo.Merge` over the
sources, left to right, starting from the zero value. -/
def mergeConfigurations (confs : List Configuration) : Configuration :=
  confs.foldl mergoMerge emptyConfiguration

/-- The first element of a list differing from the zero value `z`, or `z`
when there is none: the spec's "first non-zero value among A.f, B.f,
C.f, D.f". -/
def firstNonZero {α : Type} [DecidableEq α] (z : α) : List α → α
  | [] => z
  | x :: xs => if x = z then firstNonZero z xs else x

/-! ## Environment configuration (initializeEnvironmentConfig) -/

/-- The numeric value of a decimal digit string, unbounded. -/
def decimalValue (s : String) : Nat :=
  s.data.foldl (fun acc c => acc * 10 + (c.toNat - 48)) 0

/-- The embedding of `strconv.ParseUint(s, 10, 0)`: succeeds exactly on a
non-empty string of decimal digits whose value fits the 64-bit `uint`
(no sign prefix is permitted); fails otherwise. -/
def goParseUint (s : String) : Option Nat :=
  if s = "" then none
  else if s.data.all Char.isDigit then
    if decimalValue s < 2 ^ 64 then some (decimalValue s) else none
  else none

/-- The embedding of the environment-layer construction from
`internal/config` (source name `initializeEnvironmentConfig`): the
environment is a total function from variable name to value, with the
empty string standing for an unset variable exactly as `os.Getenv`
reports it. `IndentationSize` is set only when `ParseUint` succeeds;
`PreferredSource` is always set verbatim. -/
def initEnvConfig (env : String → String) : Configuration :=
  let conf := emptyConfiguration
  let conf :=
    match goParseUint (env "DEFINE_APP_INDENT_SIZE") with
    | some v => { conf with IndentationSize := v }
    | none => conf
  { conf with PreferredSource := env "DEFINE_APP_PREFERRED_SOURCE" }

/-! ## The Oxford provider (source/oxford/provider.go) -/

/-- The embedding of `oxford.RequiredConfigError`. -/
structure RequiredConfigError : Type where
  Key : String
deriving DecidableEq

/-- The message of `RequiredConfigError.Error()`:
`fmt.Sprintf("Required configuration key %q is missing", e.Key)`. -/
def RequiredConfigError.message (e : RequiredConfigError) : String :=
  "Required configuration key \x22" ++ e.Key ++ "\x22 is missing"

/-- The embedding of the Oxford provider's `config` struct. -/
structure OxfordConfig : Type where
  AppID : String
  AppKey : String
deriving DecidableEq

/-- Modelled from the spec: `oxford.New(http.Client{}, appID, appKey)`
lives in an oxford source file that is not among the sources at hand;
per the spec it constructs the live client (a `Source`) from the two
credentials and cannot fail. -/
structure OxfordSource : Type where
  appID : String
  appKey : String
deriving DecidableEq

/-- The embedding of the Oxford `provider.Provide`: a blank `AppID` is
rejected first, then a blank `AppKey`; otherwise the source is
constructed. -/
def oxfordProvide (conf : OxfordConfig) : Except RequiredConfigError OxfordSource :=
  if conf.AppID = "" then .error { Key := "AppID" }
  else if conf.AppKey = "" then .error { Key := "AppKey" }
  else .ok { appID := conf.AppID, appKey := conf.AppKey }

/-! ## Glosbe package-level state (source/glosbe/glosbe.go) -/

/-- The embedding of a parsed `net/url.URL` as far as glosbe uses it: the
non-query part, and the query as an association of parameter name to
value (the parse of `RawQuery`; percent-encoding is elided). -/
structure URL : Type where
  base : String
  query : List (String × String)
deriving DecidableEq

/-- The embedding of `url.Values.Set(k, v)`: all previous values of the
parameter are replaced by the single value `v`. -/
def urlValuesSet (params : List (String × String)) (k v : String) :
    List (String × String) :=
  params.filter (fun q => q.1 ≠ k) ++ [(k, v)]

/-- Insertion into a key-sorted parameter list, for `url.Values.Encode`. -/
def insertSortedByKey (p : String × String) :
    List (String × String) → List (String × String)
  | [] => [p]
  | q :: rest =>
      if p.1 ≤ q.1 then p :: q :: rest else q :: insertSortedByKey p rest

/-- The embedding of `url.Values.Encode()` as it acts on the parsed
query: the parameters are emitted sorted by key. -/
def urlValuesEncode : List (String × String) → List (String × String)
  | [] => []
  | p :: rest => insertSortedByKey p (urlValuesEncode rest)

/-- The glosbe package-level mutable state: the `apiURL` variable. -/
structure GlosbeState : Type where
  apiURL : URL
deriving DecidableEq

/-- The glosbe state as the package's init leaves it: `apiURL` is the
parse of `baseURLString`. -/
def glosbeInitState : GlosbeState :=
  { apiURL :=
      { base := "https://glosbe.com/gapi/translate"
        query := [("format", "json"), ("from", "en"), ("dest", "en")] } }

/-- The embedding of the effect of `api.Define(word)` on the glosbe
package-level state (glosbe.go lines 89-91): the query parameters of
`apiURL` are read, the `phrase` parameter is set to the word, and the
re-encoded query is written back to `apiURL.RawQuery`. -/
def glosbeDefineURLUpdate (s : GlosbeState) (word : String) : GlosbeState :=
  { s with
      apiURL :=
        { s.apiURL with
            query := urlValuesEncode (urlValuesSet s.apiURL.query "phrase" word) } }

/-! ## Configuration JSON serialisation (MarshalJSON / UnmarshalJSON) -/

/-- The embedding of `Configuration.MarshalJSON`: `structs.Map(c)` yields
the exported base fields; then every attached provider configuration
that is neither a nil interface nor of a field-less struct type
(`len(structs.Fields(providerConf)) < 1`) is added to the object under
its self-reported JSON key (a Go map assignment, hence insert-or-
replace). The Go map's iteration order is modelled by list order. -/
def Configuration.marshalJSON (c : Configuration) : JsonVal :=
  JsonVal.obj
    (c.providerConfigs.foldl
      (fun (m : List (String × JsonVal)) (kv : String × Option ProviderConfig) =>
        match kv.2 with
        | none => m
        | some pc =>
            if pc.fields.length < 1 then m
            else mapInsert m pc.jsonKey (JsonVal.obj pc.fields))
      [("IndentationSize", JsonVal.num c.IndentationSize),
       ("PreferredSource", JsonVal.str c.PreferredSource)])

/-- The fields of a possibly-nil provider configuration (nil carries
none). -/
def optFields : Option ProviderConfig → List (String × JsonVal)
  | some pc => pc.fields
  | none => []

/-- The embedding of `json.Unmarshal` of a raw sub-object into a
registered provider's existing configuration value: fields whose name
matches a key of the object are overwritten from it, the others keep
their current value; a non-object payload is an error, which
`UnmarshalJSON` ignores, leaving the value unchanged. -/
def unmarshalProviderConfig (pc : ProviderConfig) (raw : JsonVal) : ProviderConfig :=
  match raw with
  | JsonVal.obj kvs =>
      { pc with fields := pc.fields.map (fun f => (f.1, (assocLookup kvs f.1).getD f.2)) }
  | _ => pc

/-- The embedding of `Configuration.UnmarshalJSON`. The `registered`
list models `registry.Providers()` (Modelled from the spec: the
registry package is not among the sources at hand; per the spec it
iterates the currently-registered providers' configuration values).
The base fields are decoded first (a type mismatch is an error, an
absent key leaves the zero value); then, for each registered provider
whose JSON key occurs in the object, the raw sub-object is decoded into
that provider's configuration and attached under its JSON key. -/
def Configuration.unmarshalJSON (registered : List ProviderConfig)
    (data : JsonVal) : Option Configuration :=
  match data with
  | JsonVal.obj kvs =>
      (match assocLookup kvs "IndentationSize" with
       | none => some 0
       | some (JsonVal.num n) => some n
       | some _ => none).bind fun ind =>
      (match assocLookup kvs "PreferredSource" with
       | none => some ""
       | some (JsonVal.str s) => some s
       | some _ => none).bind fun ps =>
      some
        { IndentationSize := ind
          PreferredSource := ps
          providerConfigs :=
            registered.foldl
              (fun (acc : List (String × Option ProviderConfig)) (pc : ProviderConfig) =>
                match assocLookup kvs pc.jsonKey with
                | none => acc
                | some raw =>
                    mapInsert acc pc.jsonKey (some (unmarshalProviderConfig pc raw)))
              []
          configFileLocation := "" }
  | _ => none

/-! ## Config-file loading and runtime construction (NewFromRuntime) -/

/-- Go error values as the configuration code produces them, with the
message each would report. -/
inductive GoError : Type where
  | flagParse (msg : String)
  | readFile (path : String)
  | jsonParse (detail : String)
  | simple (msg : String)
deriving DecidableEq

/-- The message an error reports (`err.Error()`); the `readFile` and
`jsonParse` constructors carry the underlying path or parse detail. -/
def GoError.message : GoError → String
  | .flagParse m => m
  | .readFile p => "open " ++ p ++ ": no such file or directory"
  | .jsonParse d => d
  | .simple m => m

/-- The embedding of `homedir.Expand`: a literal `~` or a `~/` prefix is
replaced by the home directory; any other path (including the `~user`
form, on which the library errors and the callers keep the original
path) is returned unchanged. -/
def expandHome (home path : String) : String :=
  match path.data with
  | ['~'] => home
  | '~' :: '/' :: rest => home ++ String.mk ('/' :: rest)
  | _ => path

/-- What the file system holds at a path that exists and is readable:
an empty file, contents that are not valid JSON (with the parse error's
detail), or well-formed JSON. -/
inductive FileContent : Type where
  | empty
  | malformed (detail : String)
  | wellFormed (j : JsonVal)

/-- A file system: `none` at paths that do not exist (or cannot be
read), mirroring both `os.Stat`/`os.IsNotExist` and
`ioutil.ReadFile`. -/
def FileSystem : Type := String → Option FileContent

/-- The embedding of the file-layer construction from `internal/config`
(source name `initializeFileConfig`): expand the location, read the
file (a read failure is an error), and unmarshal non-empty contents
into a configuration. -/
def initFileConfig (registered : List ProviderConfig) (fs : FileSystem)
    (home : String) (fileLocation : String) : Except GoError Configuration :=
  let loc := expandHome home fileLocation
  match fs loc with
  | none => .error (.readFile loc)
  | some .empty => .ok emptyConfiguration
  | some (.malformed d) => .error (.jsonParse d)
  | some (.wellFormed j) =>
      match Configuration.unmarshalJSON registered j with
      | some c => .ok c
      | none => .error (.jsonParse "json: cannot unmarshal value")

/-- The embedding of `config.NewFromRuntime`. Flag parsing is modelled
by its outcome: `flagConf` is the command-line layer the parsed flags
produced (source name `initializeCommandLineConfig`), and
`flagParseError` is the error `flags.Parse` returned, if any. The
config-file location is the explicitly flagged one; when none is given
and the default location (after home expansion) exists, the default is
selected; a selected file that fails to load turns into the generic
`errors.New("error reading config file")`. On success the four layers
are merged; in every case the provider-configuration map is attached to
the result. -/
def NewFromRuntime (registered : List ProviderConfig) (fs : FileSystem)
    (home : String) (env : String → String)
    (flagConf : Configuration) (flagParseError : Option String)
    (providerConfigs : List (String × Option ProviderConfig))
    (defaultConfigFileLocation : String) (defaults : Configuration) :
    Configuration × Option GoError :=
  let defaults := { defaults with configFileLocation := defaultConfigFileLocation }
  match flagParseError with
  | some e => ({ emptyConfiguration with providerConfigs := providerConfigs },
               some (.flagParse e))
  | none =>
      let step :=
        if flagConf.configFileLocation = "" ∧ defaults.configFileLocation ≠ "" then
          let expanded := expandHome home defaults.configFileLocation
          ((if (fs expanded).isSome then expanded else ""),
           { defaults with configFileLocation := expanded })
        else (flagConf.configFileLocation, defaults)
      let configFileLocation := step.1
      let defaults := step.2
      let fileRes : Except GoError Configuration :=
        if configFileLocation ≠ "" then
          (initFileConfig registered fs home configFileLocation).mapError
            (fun _ => .simple "error reading config file")
        else .ok emptyConfiguration
      match fileRes with
      | .error e => ({ emptyConfiguration with providerConfigs := providerConfigs }, some e)
      | .ok fileConfig =>
          let merged := mergeConfigurations
            [flagConf, fileConfig, initEnvConfig env, defaults]
          ({ merged with providerConfigs := providerConfigs }, none)

/-! ## The result model and its validation (the source package) -/

/-- The embedding of `source.SenseValue`: one meaning within a
dictionary-style entry. -/
structure SenseValue : Type where
  definitionVals : List String
  exampleVals : List String
  synonymVals : List String
  antonymVals : List String
deriving DecidableEq

/-- The embedding of `source.DictionaryEntryValue`. -/
structure DictionaryEntryValue : Type where
  pronunciationVal : String
  senseVals : List SenseValue
deriving DecidableEq

/-- The embedding of `source.ThesaurusEntryValue`. -/
structure ThesaurusEntryValue : Type where
  synonymVals : List String
  antonymVals : List String
deriving DecidableEq

/-- A result entry, polymorphic over the entry kinds: dictionary-style,
thesaurus-style, or both at once (the shape of `glosbeEntry`, which
embeds both values). -/
inductive Entry : Type where
  | dictionary (d : DictionaryEntryValue)
  | thesaurus (t : ThesaurusEntryValue)
  | dictionaryThesaurus (d : DictionaryEntryValue) (t : ThesaurusEntryValue)
deriving DecidableEq

/-- The embedding of `source.ResultValue`. -/
structure ResultValue : Type where
  head : String
  lang : String
  entryVals : List Entry
deriving DecidableEq

/-- The embedding of `source.EmptyResultError`, carrying the looked-up
word. -/
structure EmptyResultError : Type where
  word : String
deriving DecidableEq

/-- Whether a sense carries any content: a non-empty definition,
example, synonym or antonym string. -/
def senseHasContent (s : SenseValue) : Bool :=
  s.definitionVals.any (fun d => d ≠ "") || s.exampleVals.any (fun e => e ≠ "")
    || s.synonymVals.any (fun y => y ≠ "") || s.antonymVals.any (fun a => a ≠ "")

/-- Whether an entry carries any content, depending on its kind: a
pronunciation or a contentful sense for a dictionary entry, a synonym
or antonym for a thesaurus entry, either for a combined entry. -/
def entryHasContent : Entry → Bool
  | .dictionary d => d.pronunciationVal ≠ "" || d.senseVals.any senseHasContent
  | .thesaurus t => t.synonymVals.any (fun y => y ≠ "") || t.antonymVals.any (fun a => a ≠ "")
  | .dictionaryThesaurus d t =>
      d.pronunciationVal ≠ "" || d.senseVals.any senseHasContent
        || t.synonymVals.any (fun y => y ≠ "") || t.antonymVals.any (fun a => a ≠ "")

/-- Modelled from the spec: `source.ValidateResult` is not among the
sources at hand; per the spec it fails with `EmptyResultError` carrying
the looked-up word (the result's head word) when the result has no
entries, or when every entry is itself content-free (no definitions, no
synonyms, no pronunciation, etc., depending on entry kind), and
succeeds otherwise. -/
def ValidateResult (r : ResultValue) : Option EmptyResultError :=
  if r.entryVals.isEmpty then some { word := r.head }
  else if r.entryVals.all (fun e => ¬ entryHasContent e) then some { word := r.head }
  else none

/-! ## The glosbe API result and its normalisation (apiResult.toResult) -/

/-- The embedding of `strings.EqualFold` (Unicode simple case folding,
restricted to the case mapping `String.toLower` provides). -/
def eqFold (a b : String) : Bool := a.toLower == b.toLower

/-- A meaning inside a glosbe TUC item. -/
structure GlosbeMeaning : Type where
  Language : String
  Text : String
deriving DecidableEq

/-- The separate phrase a glosbe TUC item may carry. -/
structure GlosbePhrase : Type where
  Language : String
  Text : String
deriving DecidableEq

/-- One item of the glosbe `tuc` array. -/
structure TUCItem : Type where
  Meanings : List GlosbeMeaning
  Phrase : Option GlosbePhrase
  Authors : List Nat
deriving DecidableEq

/-- The embedding of the glosbe `apiResult` payload. -/
structure apiResult : Type where
  Result : String
  TUC : List TUCItem
  Phrase : String
  Dest : String
deriving DecidableEq

/-- A one-definition sense, as the glosbe conversion builds it:
`source.SenseValue{DefinitionVals: []string{text}}`. -/
def oneDefinitionSense (text : String) : SenseValue :=
  { definitionVals := [text], exampleVals := [], synonymVals := [], antonymVals := [] }

/-- The embedding of `apiResult.toResult`: walk the TUC items once; an
item with no separate phrase, or whose phrase equals the looked-up
phrase under case folding, contributes each of its meanings as a
one-definition sense; otherwise an item with a non-empty phrase
contributes that phrase as a synonym. The senses and synonyms are
gathered into a single combined dictionary-and-thesaurus entry. -/
def apiResult.toResult (r : apiResult) : ResultValue :=
  let acc :=
    r.TUC.foldl
      (fun (acc : List SenseValue × List String) item =>
        match item.Phrase with
        | none => (acc.1 ++ item.Meanings.map (fun m => oneDefinitionSense m.Text), acc.2)
        | some p =>
            if eqFold p.Text r.Phrase then
              (acc.1 ++ item.Meanings.map (fun m => oneDefinitionSense m.Text), acc.2)
            else if p.Text ≠ "" then (acc.1, acc.2 ++ [p.Text])
            else acc)
      ([], [])
  { head := r.Phrase
    lang := r.Dest
    entryVals :=
      [Entry.dictionaryThesaurus
        { pronunciationVal := "", senseVals := acc.1 }
        { synonymVals := acc.2, antonymVals := [] }] }

/-- Whether a TUC item counts as carrying definitions for the looked-up
phrase: it has no separate phrase, or its phrase matches under case
folding. -/
def tucIsDefinition (lookedUp : String) (item : TUCItem) : Bool :=
  match item.Phrase with
  | none => true
  | some p => eqFold p.Text lookedUp

/-- The synonym a TUC item contributes, if any: its phrase text, when
that phrase differs from the looked-up phrase under case folding and is
non-empty. -/
def tucSynonym (lookedUp : String) (item : TUCItem) : Option String :=
  match item.Phrase with
  | none => none
  | some p =>
      if eqFold p.Text lookedUp then none
      else if p.Text ≠ "" then some p.Text
      else none

end Define

namespace Define

/-! ## Helper lemmas about the merge fold -/

theorem foldl_fill {α : Type} [DecidableEq α] (z : α) :
    ∀ (l : List α) (a : α),
      l.foldl (fun acc x => if acc = z then x else acc) a =
        if a = z then firstNonZero z l else a := by
  intro l
  induction l with
  | nil =>
      intro a
      by_cases h : a = z <;> simp [firstNonZero, h]
  | cons x xs ih =>
      intro a
      rw [List.foldl_cons, ih]
      by_cases h : a = z <;> by_cases hx : x = z <;> simp [firstNonZero, h, hx]

theorem merge_foldl_IndentationSize (l : List Configuration) :
    ∀ (c : Configuration),
      (l.foldl mergoMerge c).IndentationSize =
        (l.map Configuration.IndentationSize).foldl
          (fun acc x => if acc = 0 then x else acc) c.IndentationSize := by
  induction l with
  | nil => intro c; rfl
  | cons x xs ih => intro c; simpa [mergoMerge] using ih (mergoMerge c x)

theorem merge_foldl_PreferredSource (l : List Configuration) :
    ∀ (c : Configuration),
      (l.foldl mergoMerge c).PreferredSource =
        (l.map Configuration.PreferredSource).foldl
          (fun acc x => if acc = "" then x else acc) c.PreferredSource := by
  induction l with
  | nil => intro c; rfl
  | cons x xs ih => intro c; simpa [mergoMerge] using ih (mergoMerge c x)

theorem merge_foldl_providerConfigs (l : List Configuration) :
    ∀ (c : Configuration), (l.foldl mergoMerge c).providerConfigs = c.providerConfigs := by
  induction l with
  | nil => intro c; rfl
  | cons x xs ih => intro c; simpa [mergoMerge] using ih (mergoMerge c x)

theorem merge_foldl_configFileLocation (l : List Configuration) :
    ∀ (c : Configuration), (l.foldl mergoMerge c).configFileLocation = c.configFileLocation := by
  induction l with
  | nil => intro c; rfl
  | cons x xs ih => intro c; simpa [mergoMerge] using ih (mergoMerge c x)

/-! ## C1: merge precedence -/

/-- C1 counterexample: the claim states that for EVERY field of
`Configuration` the merged value is the first non-zero value among the
four sources, but mergo skips the private fields, so a command-line
configuration carrying a non-empty `configFileLocation` loses it in the
merge: the merged value is the empty string, not the first non-zero
value "x". -/
theorem merge_private_field_counterexample :
    ¬ ((mergeConfigurations
          [{ IndentationSize := 0, PreferredSource := "",
             providerConfigs := [], configFileLocation := "x" },
           emptyConfiguration, emptyConfiguration, emptyConfiguration]).configFileLocation
        = firstNonZero "" ["x", "", "", ""]) := by
  decide

/-- C1 (amended): for the exported fields `IndentationSize` and
`PreferredSource`, the merge of four configurations yields the first
non-zero value among the sources in order (and the zero value when all
four are zero); the private fields `providerConfigs` and
`configFileLocation` are not merged and remain zero-valued. -/
theorem mergeConfigurations_precedence (A B C D : Configuration) :
    (mergeConfigurations [A, B, C, D]).IndentationSize =
      firstNonZero 0 [A.IndentationSize, B.IndentationSize,
        C.IndentationSize, D.IndentationSize]
    ∧ (mergeConfigurations [A, B, C, D]).PreferredSource =
      firstNonZero "" [A.PreferredSource, B.PreferredSource,
        C.PreferredSource, D.PreferredSource]
    ∧ (mergeConfigurations [A, B, C, D]).providerConfigs = []
    ∧ (mergeConfigurations [A, B, C, D]).configFileLocation = "" := by
  refine ⟨?_, ?_, ?_, ?_⟩
  · rw [mergeConfigurations, merge_foldl_IndentationSize, foldl_fill]
    simp [emptyConfiguration]
  · rw [mergeConfigurations, merge_foldl_PreferredSource, foldl_fill]
    simp [emptyConfiguration]
  · rw [mergeConfigurations, merge_foldl_providerConfigs]; rfl
  · rw [mergeConfigurations, merge_foldl_configFileLocation]; rfl

/-! ## C8: merge determinism -/

/-- C8: `mergeConfigurations` is a deterministic function of its inputs:
merging the same ordered list of configuration sources twice yields
identical results. -/
theorem mergeConfigurations_deterministic (confs confs' : List Configuration)
    (h : confs = confs') : mergeConfigurations confs = mergeConfigurations confs' := by
  rw [h]

/-- Witness for C8 at a concrete input. -/
theorem mergeConfigurations_deterministic_witness :
    mergeConfigurations [emptyConfiguration] = mergeConfigurations [emptyConfiguration] :=
  mergeConfigurations_deterministic [emptyConfiguration] [emptyConfiguration] rfl

/-! ## C3: the Oxford provider's Provide -/

/-- C3: `Provide` on the Oxford provider fails with
`RequiredConfigError{Key:"AppID"}` whenever `AppID` is blank (regardless
of `AppKey`), fails with `RequiredConfigError{Key:"AppKey"}` whenever
`AppID` is present but `AppKey` is blank, and succeeds with a
constructed source when both are present. -/
theorem oxfordProvide_spec (c : OxfordConfig) :
    (c.AppID = "" → oxfordProvide c = .error { Key := "AppID" })
    ∧ (c.AppID ≠ "" → c.AppKey = "" → oxfordProvide c = .error { Key := "AppKey" })
    ∧ (c.AppID ≠ "" → c.AppKey ≠ "" →
        oxfordProvide c = .ok { appID := c.AppID, appKey := c.AppKey }) := by
  refine ⟨?_, ?_, ?_⟩ <;> intros <;> simp_all [oxfordProvide]

/-- Witness for C3 on the three concrete credential shapes. -/
theorem oxfordProvide_spec_witness :
    oxfordProvide { AppID := "", AppKey := "k" } = .error { Key := "AppID" }
    ∧ oxfordProvide { AppID := "i", AppKey := "" } = .error { Key := "AppKey" }
    ∧ oxfordProvide { AppID := "i", AppKey := "k" } = .ok { appID := "i", appKey := "k" } :=
  ⟨(oxfordProvide_spec { AppID := "", AppKey := "k" }).1 rfl,
   (oxfordProvide_spec { AppID := "i", AppKey := "" }).2.1 (by decide) rfl,
   (oxfordProvide_spec { AppID := "i", AppKey := "k" }).2.2 (by decide) (by decide)⟩

/-! ## C10: the environment layer -/

/-- C10 counterexample: the claim says `IndentationSize` is set to the
parsed value whenever `DEFINE_APP_INDENT_SIZE` is set, numeric and
non-negative, but the value 2^64 is numeric and non-negative and still
leaves `IndentationSize` at zero, because `strconv.ParseUint` range-
checks against the 64-bit unsigned bound. -/
theorem initEnvConfig_overflow_counterexample :
    Configuration.IndentationSize
      (initEnvConfig (fun k =>
        if k = "DEFINE_APP_INDENT_SIZE" then "18446744073709551616" else "")) = 0
    ∧ ("18446744073709551616" ≠ "")
    ∧ ("18446744073709551616".data.all Char.isDigit = true)
    ∧ decimalValue "18446744073709551616" ≠ 0 := by
  refine ⟨?_, by decide, by decide, by decide⟩
  rfl

/-- C10 (amended): the environment layer leaves `IndentationSize` at
zero whenever `DEFINE_APP_INDENT_SIZE` is unset, not a plain digit
string (which covers every negative value), or out of the 64-bit
unsigned range; it sets `IndentationSize` to the parsed value when the
variable is a digit string in range; and `PreferredSource` is always
the verbatim value of `DEFINE_APP_PREFERRED_SOURCE`. -/
theorem initEnvConfig_spec (env : String → String) :
    (env "DEFINE_APP_INDENT_SIZE" = "" → (initEnvConfig env).IndentationSize = 0)
    ∧ (¬ (env "DEFINE_APP_INDENT_SIZE").data.all Char.isDigit = true →
        (initEnvConfig env).IndentationSize = 0)
    ∧ ((env "DEFINE_APP_INDENT_SIZE").data.all Char.isDigit = true →
        2 ^ 64 ≤ decimalValue (env "DEFINE_APP_INDENT_SIZE") →
        (initEnvConfig env).IndentationSize = 0)
    ∧ (env "DEFINE_APP_INDENT_SIZE" ≠ "" →
        (env "DEFINE_APP_INDENT_SIZE").data.all Char.isDigit = true →
        decimalValue (env "DEFINE_APP_INDENT_SIZE") < 2 ^ 64 →
        (initEnvConfig env).IndentationSize = decimalValue (env "DEFINE_APP_INDENT_SIZE"))
    ∧ (initEnvConfig env).PreferredSource = env "DEFINE_APP_PREFERRED_SOURCE" := by
  have hI : ∀ o, goParseUint (env "DEFINE_APP_INDENT_SIZE") = o →
      (initEnvConfig env).IndentationSize = o.getD 0 := by
    intro o ho
    cases o <;> simp [initEnvConfig, ho, emptyConfiguration]
  refine ⟨?_, ?_, ?_, ?_, ?_⟩
  · intro hs
    exact hI none (by simp [goParseUint, hs])
  · intro hd
    refine hI none ?_
    by_cases hs : env "DEFINE_APP_INDENT_SIZE" = "" <;> simp [goParseUint, hs, hd]
  · intro hd hge
    refine hI none ?_
    unfold goParseUint
    split_ifs with h1 h2
    · rfl
    · exact absurd h2 (Nat.not_lt.mpr hge)
    · rfl
  · intro hs hd hlt
    refine hI (some (decimalValue (env "DEFINE_APP_INDENT_SIZE"))) ?_
    unfold goParseUint
    rw [if_neg hs, if_pos hd, if_pos hlt]
  · simp [initEnvConfig]

/-- Witness for C10: a digit string in range is parsed, the unset
variable leaves zero. -/
theorem initEnvConfig_spec_witness :
    Configuration.IndentationSize
        (initEnvConfig (fun k => if k = "DEFINE_APP_INDENT_SIZE" then "3" else "g"))
      = decimalValue "3"
    ∧ (initEnvConfig (fun _ => "")).IndentationSize = 0 :=
  ⟨(initEnvConfig_spec (fun k => if k = "DEFINE_APP_INDENT_SIZE" then "3" else "g")).2.2.2.1
      (by decide) (by decide) (by decide),
   (initEnvConfig_spec (fun _ => "")).1 rfl⟩

/-! ## C4: result validation -/

/-- C4: validation fails with `EmptyResultError` carrying the looked-up
word when the result has zero entries, and also when every entry is
content-free; it succeeds for a result with exactly one entry
containing one non-empty definition. -/
theorem validateResult_spec :
    (∀ r : ResultValue, r.entryVals = [] →
        ValidateResult r = some { word := r.head })
    ∧ (∀ r : ResultValue, r.entryVals ≠ [] →
        (∀ e ∈ r.entryVals, entryHasContent e = false) →
        ValidateResult r = some { word := r.head })
    ∧ (∀ (head lang d : String), d ≠ "" →
        ValidateResult
          { head := head, lang := lang,
            entryVals :=
              [Entry.dictionary
                { pronunciationVal := "", senseVals := [oneDefinitionSense d] }] }
          = none) := by
  refine ⟨?_, ?_, ?_⟩
  · intro r h
    simp [ValidateResult, h]
  · intro r hne hfree
    have h1 : r.entryVals.isEmpty = false := by
      cases h : r.entryVals <;> simp_all
    simp [ValidateResult, h1]
    exact hfree
  · intro head lang d hd
    simp [ValidateResult, entryHasContent, senseHasContent, oneDefinitionSense, hd]

/-- Witness for C4 on concrete results for the word "w". -/
theorem validateResult_spec_witness :
    ValidateResult { head := "w", lang := "en", entryVals := [] }
        = some { word := "w" }
    ∧ ValidateResult
        { head := "w", lang := "en",
          entryVals := [Entry.thesaurus { synonymVals := [], antonymVals := [] }] }
        = some { word := "w" }
    ∧ ValidateResult
        { head := "w", lang := "en",
          entryVals :=
            [Entry.dictionary
              { pronunciationVal := "", senseVals := [oneDefinitionSense "a meaning"] }] }
        = none :=
  ⟨validateResult_spec.1 { head := "w", lang := "en", entryVals := [] } rfl,
   validateResult_spec.2.1
     { head := "w", lang := "en",
       entryVals := [Entry.thesaurus { synonymVals := [], antonymVals := [] }] }
     (by decide) (by decide),
   validateResult_spec.2.2 "w" "en" "a meaning" (by decide)⟩

/-! ## C7: the glosbe package-level state -/

theorem insertSortedByKey_perm (p : String × String) :
    ∀ l : List (String × String), (insertSortedByKey p l).Perm (p :: l) := by
  intro l
  induction l with
  | nil => simp [insertSortedByKey]
  | cons q rest ih =>
      rw [insertSortedByKey]
      by_cases h : p.1 ≤ q.1
      · rw [if_pos h]
      · rw [if_neg h]
        exact ((ih.cons q).trans (List.Perm.swap p q rest)).symm.symm

theorem urlValuesEncode_perm :
    ∀ l : List (String × String), (urlValuesEncode l).Perm l := by
  intro l
  induction l with
  | nil => simp [urlValuesEncode]
  | cons p rest ih =>
      rw [urlValuesEncode]
      exact (insertSortedByKey_perm p (urlValuesEncode rest)).trans (ih.cons p)

/-- C7 counterexample: the claim states that `Define(w)` leaves all
package-level state unchanged, but on the freshly initialised state a
lookup of "hello" rewrites the package-level `apiURL`, whose query now
carries the phrase parameter. -/
theorem glosbeDefine_mutates_state_counterexample :
    glosbeDefineURLUpdate glosbeInitState "hello" ≠ glosbeInitState := by
  intro h
  have hq := congrArg (fun st : GlosbeState => st.apiURL.query.length) h
  have hperm := (urlValuesEncode_perm
    (urlValuesSet glosbeInitState.apiURL.query "phrase" "hello")).length_eq
  simp only [glosbeDefineURLUpdate] at hq
  rw [hperm] at hq
  simp [glosbeInitState, urlValuesSet] at hq

/-- C7 (amended): the effect of the glosbe `Define(word)` on the
package-level state is confined to the `apiURL` query, which it DOES
mutate: the non-query part is unchanged, the parameters other than
`phrase` are preserved up to the reordering of re-encoding, and the
`phrase` parameter afterwards holds exactly the looked-up word. -/
theorem glosbeDefine_state_effect (s : GlosbeState) (w : String) :
    (glosbeDefineURLUpdate s w).apiURL.base = s.apiURL.base
    ∧ ((glosbeDefineURLUpdate s w).apiURL.query.filter
          (fun q => q.1 ≠ "phrase")).Perm
        (s.apiURL.query.filter (fun q => q.1 ≠ "phrase"))
    ∧ (glosbeDefineURLUpdate s w).apiURL.query.filter (fun q => q.1 = "phrase")
        = [("phrase", w)] := by
  have hperm := urlValuesEncode_perm (urlValuesSet s.apiURL.query "phrase" w)
  refine ⟨rfl, ?_, ?_⟩
  · refine (hperm.filter _).trans ?_
    rw [urlValuesSet, List.filter_append, List.filter_filter]
    simp
  · have h2 : (urlValuesSet s.apiURL.query "phrase" w).filter
        (fun q => q.1 = "phrase") = [("phrase", w)] := by
      rw [urlValuesSet, List.filter_append, List.filter_filter]
      simp
    exact List.perm_singleton.mp ((hperm.filter _).trans (h2 ▸ List.Perm.refl _))

/-! ## C9: the glosbe result normalisation -/

theorem glosbe_foldl_characterisation (r : apiResult) :
    ∀ (items : List TUCItem) (s0 : List SenseValue) (y0 : List String),
      items.foldl
        (fun (acc : List SenseValue × List String) item =>
          match item.Phrase with
          | none => (acc.1 ++ item.Meanings.map (fun m => oneDefinitionSense m.Text), acc.2)
          | some p =>
              if eqFold p.Text r.Phrase then
                (acc.1 ++ item.Meanings.map (fun m => oneDefinitionSense m.Text), acc.2)
              else if p.Text ≠ "" then (acc.1, acc.2 ++ [p.Text])
              else acc)
        (s0, y0)
      = (s0 ++ (items.filter (tucIsDefinition r.Phrase)).flatMap
            (fun item => item.Meanings.map (fun m => oneDefinitionSense m.Text)),
         y0 ++ items.filterMap (tucSynonym r.Phrase)) := by
  intro items
  induction items with
  | nil => intro s0 y0; simp
  | cons item rest ih =>
      intro s0 y0
      rw [List.foldl_cons]
      cases hp : item.Phrase with
      | none =>
          simp only [ih]
          simp [tucIsDefinition, tucSynonym, hp, List.filter_cons, List.filterMap_cons]
      | some p =>
          by_cases heq : eqFold p.Text r.Phrase
          · simp only [hp, heq, if_true, ih]
            simp [tucIsDefinition, tucSynonym, hp, heq, List.filter_cons,
              List.filterMap_cons]
          · by_cases hne : p.Text ≠ ""
            · simp only [hp, heq, hne, if_false, if_true, ih]
              simp [tucIsDefinition, tucSynonym, hp, heq, hne, List.filter_cons,
                List.filterMap_cons]
            · simp only [hp, heq, hne, if_false, ih]
              simp [tucIsDefinition, tucSynonym, hp, heq, hne, List.filter_cons,
                List.filterMap_cons]

/-- C9: `toResult` produces exactly one entry, headed by the response's
`Phrase` and language `Dest`; its senses are one one-definition sense
per meaning of each TUC item that has no separate phrase or whose
phrase matches the looked-up phrase case-insensitively, in order; its
synonyms are the phrase texts of the TUC items with a different
non-empty phrase, in order. -/
theorem toResult_spec (r : apiResult) :
    r.toResult =
      { head := r.Phrase
        lang := r.Dest
        entryVals :=
          [Entry.dictionaryThesaurus
            { pronunciationVal := ""
              senseVals :=
                (r.TUC.filter (tucIsDefinition r.Phrase)).flatMap
                  (fun item => item.Meanings.map (fun m => oneDefinitionSense m.Text)) }
            { synonymVals := r.TUC.filterMap (tucSynonym r.Phrase)
              antonymVals := [] }] } := by
  rw [apiResult.toResult]
  rw [glosbe_foldl_characterisation r r.TUC [] []]
  simp

/-! ## Helper lemmas for NewFromRuntime -/

theorem mergoMerge_empty_right (c : Configuration) :
    mergoMerge c emptyConfiguration = c := by
  rcases c with ⟨i, p, pr, l⟩
  unfold mergoMerge emptyConfiguration
  by_cases h1 : i = 0 <;> by_cases h2 : p = "" <;> simp [h1, h2]

theorem merge_skip_empty (A C D : Configuration) :
    mergeConfigurations [A, emptyConfiguration, C, D] = mergeConfigurations [A, C, D] := by
  unfold mergeConfigurations
  simp only [List.foldl_cons, List.foldl_nil, mergoMerge_empty_right]

theorem mergeConfigurations_IndentationSize (l : List Configuration) :
    (mergeConfigurations l).IndentationSize
      = (l.map Configuration.IndentationSize).foldl
          (fun acc x => if acc = 0 then x else acc) 0 :=
  merge_foldl_IndentationSize l emptyConfiguration

theorem mergeConfigurations_PreferredSource (l : List Configuration) :
    (mergeConfigurations l).PreferredSource
      = (l.map Configuration.PreferredSource).foldl
          (fun acc x => if acc = "" then x else acc) "" :=
  merge_foldl_PreferredSource l emptyConfiguration

/-! ## C5: config-file resolution -/

/-- C5: with no explicit config-file flag and a default path that does
not exist, `NewFromRuntime` succeeds and merges only the flag,
environment and default layers (and attaches the provider map); with an
explicit path whose file cannot be read, it fails with an error. -/
theorem newFromRuntime_config_file_resolution
    (registered : List ProviderConfig) (fs : FileSystem) (home : String)
    (env : String → String) (flagConf : Configuration)
    (providerConfigs : List (String × Option ProviderConfig))
    (defaultLoc : String) (defaults : Configuration) :
    (flagConf.configFileLocation = "" →
      fs (expandHome home defaultLoc) = none →
      (NewFromRuntime registered fs home env flagConf none providerConfigs
          defaultLoc defaults).2 = none
      ∧ (NewFromRuntime registered fs home env flagConf none providerConfigs
          defaultLoc defaults).1.IndentationSize
        = (mergeConfigurations [flagConf, initEnvConfig env, defaults]).IndentationSize
      ∧ (NewFromRuntime registered fs home env flagConf none providerConfigs
          defaultLoc defaults).1.PreferredSource
        = (mergeConfigurations [flagConf, initEnvConfig env, defaults]).PreferredSource
      ∧ (NewFromRuntime registered fs home env flagConf none providerConfigs
          defaultLoc defaults).1.providerConfigs = providerConfigs)
    ∧ (flagConf.configFileLocation ≠ "" →
      fs (expandHome home flagConf.configFileLocation) = none →
      (NewFromRuntime registered fs home env flagConf none providerConfigs
          defaultLoc defaults).2
        = some (GoError.simple "error reading config file")) := by
  constructor
  · intro hflag hfs
    have hres : NewFromRuntime registered fs home env flagConf none providerConfigs
        defaultLoc defaults
        = ({ mergeConfigurations [flagConf, emptyConfiguration, initEnvConfig env,
              { defaults with configFileLocation :=
                  if defaultLoc = "" then defaultLoc else expandHome home defaultLoc }] with
            providerConfigs := providerConfigs }, none) := by
      by_cases hd : defaultLoc = ""
      · simp [NewFromRuntime, hflag, hd]
      · simp [NewFromRuntime, hflag, hd, hfs]
    refine ⟨?_, ?_, ?_, ?_⟩
    · rw [hres]
    · rw [hres]
      show (mergeConfigurations _).IndentationSize = _
      rw [merge_skip_empty, mergeConfigurations_IndentationSize,
        mergeConfigurations_IndentationSize]
      simp
    · rw [hres]
      show (mergeConfigurations _).PreferredSource = _
      rw [merge_skip_empty, mergeConfigurations_PreferredSource,
        mergeConfigurations_PreferredSource]
      simp
    · rw [hres]
  · intro hflag hfs
    have hfile : initFileConfig registered fs home flagConf.configFileLocation
        = .error (.readFile (expandHome home flagConf.configFileLocation)) := by
      simp [initFileConfig, hfs]
    simp [NewFromRuntime, hflag, hfile, Except.mapError]

/-- Witness for C5: a run with no flagged file and a missing default
succeeds; a run with a flagged but missing file fails with the generic
error. -/
theorem newFromRuntime_config_file_resolution_witness :
    (NewFromRuntime [] (fun _ => none) "/home/u" (fun _ => "")
        emptyConfiguration none [] "~/.define.conf.json"
        { IndentationSize := 2, PreferredSource := "g",
          providerConfigs := [], configFileLocation := "" }).2 = none
    ∧ (NewFromRuntime [] (fun _ => none) "/home/u" (fun _ => "")
        { emptyConfiguration with configFileLocation := "/etc/absent.json" } none []
        "~/.define.conf.json"
        { IndentationSize := 2, PreferredSource := "g",
          providerConfigs := [], configFileLocation := "" }).2
      = some (GoError.simple "error reading config file") :=
  ⟨((newFromRuntime_config_file_resolution [] (fun _ => none) "/home/u" (fun _ => "")
      emptyConfiguration []
      "~/.define.conf.json"
      { IndentationSize := 2, PreferredSource := "g",
        providerConfigs := [], configFileLocation := "" }).1 rfl rfl).1,
   (newFromRuntime_config_file_resolution [] (fun _ => none) "/home/u" (fun _ => "")
      { emptyConfiguration with configFileLocation := "/etc/absent.json" } []
      "~/.define.conf.json"
      { IndentationSize := 2, PreferredSource := "g",
        providerConfigs := [], configFileLocation := "" }).2 (by decide) rfl⟩

/-! ## C6: the generic config-file error -/

theorem fileRes_error_generic (registered : List ProviderConfig) (fs : FileSystem)
    (home loc : String) (e' : GoError)
    (h : (if loc ≠ "" then
            (initFileConfig registered fs home loc).mapError
              (fun _ => GoError.simple "error reading config file")
          else .ok emptyConfiguration) = .error e') :
    e' = GoError.simple "error reading config file" := by
  by_cases hl : loc ≠ ""
  · rw [if_pos hl] at h
    cases hf : initFileConfig registered fs home loc <;>
      rw [hf] at h <;> simp [Except.mapError] at h
    exact h.symm
  · rw [if_neg hl] at h
    simp at h

/-- C6: every error `NewFromRuntime` reports is either the flag-parse
error it propagates or exactly the generic
`errors.New("error reading config file")`; in particular every failure
while reading or parsing a selected config file surfaces with exactly
that message, never the underlying path or parse detail. -/
theorem newFromRuntime_generic_file_error
    (registered : List ProviderConfig) (fs : FileSystem) (home : String)
    (env : String → String) (flagConf : Configuration) (flagPE : Option String)
    (providerConfigs : List (String × Option ProviderConfig))
    (defaultLoc : String) (defaults : Configuration) (e : GoError)
    (h : (NewFromRuntime registered fs home env flagConf flagPE providerConfigs
        defaultLoc defaults).2 = some e) :
    (∃ m, flagPE = some m ∧ e = GoError.flagParse m)
    ∨ (e = GoError.simple "error reading config file"
       ∧ e.message = "error reading config file") := by
  cases flagPE with
  | some m =>
      left
      simp [NewFromRuntime] at h
      exact ⟨m, rfl, h.symm⟩
  | none =>
      right
      simp only [NewFromRuntime] at h
      split at h
      case _ e' heq =>
        simp only [Option.some.injEq] at h
        subst h
        have hshape := fileRes_error_generic _ _ _ _ _ heq
        exact ⟨hshape, by simp [hshape, GoError.message]⟩
      case _ c heq =>
        simp at h

/-- Witness for C6: the concrete failing run from the C5 witness reports
exactly the generic message. -/
theorem newFromRuntime_generic_file_error_witness :
    (∃ m, (none : Option String) = some m
        ∧ GoError.simple "error reading config file" = GoError.flagParse m)
    ∨ (GoError.simple "error reading config file"
          = GoError.simple "error reading config file"
       ∧ (GoError.simple "error reading config file").message
          = "error reading config file") :=
  newFromRuntime_generic_file_error [] (fun _ => none) "/home/u" (fun _ => "")
    { emptyConfiguration with configFileLocation := "/etc/absent.json" } none []
    "~/.define.conf.json"
    { IndentationSize := 2, PreferredSource := "g",
      providerConfigs := [], configFileLocation := "" }
    (GoError.simple "error reading config file") rfl

/-! ## Association-list lemmas for the serialisation round trip -/

theorem assocLookup_append {α : Type} :
    ∀ (m m' : List (String × α)) (k : String),
      assocLookup (m ++ m') k = (assocLookup m k).or (assocLookup m' k) := by
  intro m
  induction m with
  | nil => intro m' k; simp [assocLookup, Option.or]
  | cons kv rest ih =>
      intro m' k
      rcases kv with ⟨k', v⟩
      rw [List.cons_append, assocLookup, assocLookup]
      by_cases h : k' = k
      · simp [h, Option.or]
      · simp [h, ih]

theorem mapInsert_of_lookup_none {α : Type} :
    ∀ (m : List (String × α)) (k : String) (v : α),
      assocLookup m k = none → mapInsert m k v = m ++ [(k, v)] := by
  intro m
  induction m with
  | nil => intro k v _; rfl
  | cons kv rest ih =>
      intro k v h
      rcases kv with ⟨k', v'⟩
      rw [assocLookup] at h
      by_cases he : k' = k
      · rw [if_pos he] at h
        exact absurd h (by simp)
      · rw [if_neg he] at h
        rw [mapInsert, if_neg he, ih k v h, List.cons_append]

theorem assocLookup_isSome_iff_mem {α : Type} :
    ∀ (l : List (String × α)) (k : String),
      (assocLookup l k).isSome = true ↔ k ∈ l.map Prod.fst := by
  intro l
  induction l with
  | nil => intro k; simp [assocLookup]
  | cons kv rest ih =>
      intro k
      rcases kv with ⟨k', v⟩
      rw [assocLookup]
      by_cases h : k' = k
      · simp [h]
      · simp only [if_neg h, List.map_cons, List.mem_cons, ih]
        constructor
        · exact fun hm => Or.inr hm
        · rintro (hm | hm)
          · exact absurd hm.symm h
          · exact hm

theorem mem_of_assocLookup {α : Type} :
    ∀ (l : List (String × α)) (k : String) (v : α),
      assocLookup l k = some v → (k, v) ∈ l := by
  intro l
  induction l with
  | nil => intro k v h; exact absurd h (by simp [assocLookup])
  | cons kv rest ih =>
      intro k v h
      rcases kv with ⟨k', v'⟩
      rw [assocLookup] at h
      by_cases he : k' = k
      · rw [if_pos he] at h
        obtain rfl : v' = v := by simpa using h
        subst he
        exact List.mem_cons_self _ _
      · rw [if_neg he] at h
        exact List.mem_cons_of_mem _ (ih k v h)

theorem assocLookup_self_of_nodup {α : Type} :
    ∀ (l : List (String × α)), (l.map Prod.fst).Nodup →
      ∀ p ∈ l, assocLookup l p.1 = some p.2 := by
  intro l
  induction l with
  | nil => intro _ p hp; exact absurd hp (by simp)
  | cons q rest ih =>
      intro hnd p hp
      rw [List.map_cons, List.nodup_cons] at hnd
      rcases q with ⟨qk, qv⟩
      rcases List.mem_cons.mp hp with hp | hp
      · subst hp
        rw [assocLookup, if_pos rfl]
      · rw [assocLookup]
        have hne : qk ≠ p.1 := by
          intro he
          apply hnd.1
          rw [he]
          exact List.mem_map.mpr ⟨p, hp, rfl⟩
        rw [if_neg hne]
        exact ih hnd.2 p hp

theorem assocLookup_map_val {α β : Type} (g : α → β) :
    ∀ (l : List (String × α)) (k : String),
      assocLookup (l.map (fun kv => (kv.1, g kv.2))) k = (assocLookup l k).map g := by
  intro l
  induction l with
  | nil => intro k; simp [assocLookup]
  | cons kv rest ih =>
      intro k
      rcases kv with ⟨k', v⟩
      rw [List.map_cons]
      rw [assocLookup, assocLookup]
      by_cases h : k' = k
      · simp [h]
      · simp only [if_neg h]
        exact ih k

/-! ## Fold characterisations of the two serialisation loops -/

theorem marshal_fold :
    ∀ (l : List (String × Option ProviderConfig)) (m : List (String × JsonVal)),
      (∀ kv ∈ l, ∃ pc, kv.2 = some pc ∧ kv.1 = pc.jsonKey ∧ pc.fields ≠ []) →
      (∀ kv ∈ l, assocLookup m kv.1 = none) →
      (l.map Prod.fst).Nodup →
      l.foldl
        (fun (m : List (String × JsonVal)) (kv : String × Option ProviderConfig) =>
          match kv.2 with
          | none => m
          | some pc =>
              if pc.fields.length < 1 then m
              else mapInsert m pc.jsonKey (JsonVal.obj pc.fields))
        m
      = m ++ l.map (fun kv => (kv.1, JsonVal.obj (optFields kv.2))) := by
  intro l
  induction l with
  | nil => intro m _ _ _; simp
  | cons kv rest ih =>
      intro m hl hdisj hnd
      obtain ⟨pc, hpc, hkey, hne⟩ := hl kv (List.mem_cons_self _ _)
      rcases kv with ⟨k, ov⟩
      simp only at hpc hkey
      subst hpc
      rw [List.foldl_cons]
      have hlen : ¬ pc.fields.length < 1 := by
        cases hf : pc.fields with
        | nil => exact absurd hf hne
        | cons a as => simp [hf]
      have hm0 : assocLookup m pc.jsonKey = none := by
        have := hdisj (k, some pc) (List.mem_cons_self _ _)
        rwa [hkey] at this
      rw [List.map_cons, List.nodup_cons] at hnd
      have hstep :
          (match some pc with
            | none => m
            | some pc =>
                if pc.fields.length < 1 then m
                else mapInsert m pc.jsonKey (JsonVal.obj pc.fields))
          = m ++ [(pc.jsonKey, JsonVal.obj pc.fields)] := by
        simp only [if_neg hlen]
        exact mapInsert_of_lookup_none m pc.jsonKey _ hm0
      rw [hstep]
      rw [ih (m ++ [(pc.jsonKey, JsonVal.obj pc.fields)])
        (fun kv' hkv' => hl kv' (List.mem_cons_of_mem _ hkv'))
        ?hdisj2 hnd.2]
      · rw [List.map_cons, List.append_assoc]
        simp [hkey, optFields]
      case hdisj2 =>
        intro kv' hkv'
        rw [assocLookup_append]
        rw [hdisj kv' (List.mem_cons_of_mem _ hkv')]
        have hk' : pc.jsonKey ≠ kv'.1 := by
          intro he
          apply hnd.1
          rw [← hkey] at he
          rw [he]
          exact List.mem_map.mpr ⟨kv', hkv', rfl⟩
        simp [assocLookup, hk', Option.or]

theorem unmarshal_fold (kvs : List (String × JsonVal)) :
    ∀ (reg : List ProviderConfig) (acc : List (String × Option ProviderConfig)),
      (∀ r ∈ reg, assocLookup acc r.jsonKey = none) →
      (reg.map ProviderConfig.jsonKey).Nodup →
      reg.foldl
        (fun (acc : List (String × Option ProviderConfig)) (pc : ProviderConfig) =>
          match assocLookup kvs pc.jsonKey with
          | none => acc
          | some raw => mapInsert acc pc.jsonKey (some (unmarshalProviderConfig pc raw)))
        acc
      = acc ++ reg.filterMap
          (fun r => (assocLookup kvs r.jsonKey).map
            (fun raw => (r.jsonKey, some (unmarshalProviderConfig r raw)))) := by
  intro reg
  induction reg with
  | nil => intro acc _ _; simp
  | cons r rest ih =>
      intro acc hdisj hnd
      rw [List.map_cons, List.nodup_cons] at hnd
      rw [List.foldl_cons, List.filterMap_cons]
      cases hlk : assocLookup kvs r.jsonKey with
      | none =>
          simp only [Option.map_none']
          rw [ih acc (fun r' hr' => hdisj r' (List.mem_cons_of_mem _ hr')) hnd.2]
      | some raw =>
          simp only [Option.map_some']
          have hstep : mapInsert acc r.jsonKey (some (unmarshalProviderConfig r raw))
              = acc ++ [(r.jsonKey, some (unmarshalProviderConfig r raw))] :=
            mapInsert_of_lookup_none acc r.jsonKey _
              (hdisj r (List.mem_cons_self _ _))
          rw [hstep]
          rw [ih (acc ++ [(r.jsonKey, some (unmarshalProviderConfig r raw))])
            ?hdisj2 hnd.2]
          · rw [List.append_assoc]
            rfl
          case hdisj2 =>
            intro r' hr'
            rw [assocLookup_append]
            rw [hdisj r' (List.mem_cons_of_mem _ hr')]
            have hk' : r.jsonKey ≠ r'.jsonKey := by
              intro he
              apply hnd.1
              rw [he]
              exact List.mem_map.mpr ⟨r', hr', rfl⟩
            simp [assocLookup, hk', Option.or]

/-! ## Decoding a provider configuration back from its own fields -/

theorem map_update_eq (full : List (String × JsonVal)) :
    ∀ (rf pf : List (String × JsonVal)),
      rf.map Prod.fst = pf.map Prod.fst →
      (∀ p ∈ pf, assocLookup full p.1 = some p.2) →
      rf.map (fun f => (f.1, (assocLookup full f.1).getD f.2)) = pf := by
  intro rf
  induction rf with
  | nil =>
      intro pf h _
      cases pf with
      | nil => rfl
      | cons p pf' => simp at h
  | cons f rf' ih =>
      intro pf h hpf
      cases pf with
      | nil => simp at h
      | cons p pf' =>
          simp only [List.map_cons, List.cons.injEq] at h
          obtain ⟨h1, h2⟩ := h
          have hp := hpf p (List.mem_cons_self _ _)
          rw [List.map_cons]
          congr 1
          · rw [h1, hp]
            exact Prod.ext rfl rfl
          · exact ih pf' h2 (fun q hq => hpf q (List.mem_cons_of_mem _ hq))

theorem unmarshalProviderConfig_self (r pc : ProviderConfig)
    (hkey : r.jsonKey = pc.jsonKey)
    (hfkeys : r.fields.map Prod.fst = pc.fields.map Prod.fst)
    (hnodup : (pc.fields.map Prod.fst).Nodup) :
    unmarshalProviderConfig r (JsonVal.obj pc.fields) = pc := by
  rw [unmarshalProviderConfig]
  rw [map_update_eq pc.fields r.fields pc.fields hfkeys
    (assocLookup_self_of_nodup pc.fields hnodup)]
  rcases pc with ⟨pk, pfs⟩
  simp only at hkey
  rw [hkey]

/-! ## Lookups in the decoded provider map -/

theorem assocLookup_filterMap_none (kvs : List (String × JsonVal)) :
    ∀ (reg : List ProviderConfig) (key : String),
      (∀ r ∈ reg, r.jsonKey = key → assocLookup kvs key = none) →
      assocLookup
        (reg.filterMap
          (fun r => (assocLookup kvs r.jsonKey).map
            (fun raw => (r.jsonKey, some (unmarshalProviderConfig r raw))))) key
      = none := by
  intro reg
  induction reg with
  | nil => intro key _; rfl
  | cons r rest ih =>
      intro key hcond
      rw [List.filterMap_cons]
      cases hlk : assocLookup kvs r.jsonKey with
      | none =>
          simp only [Option.map_none']
          exact ih key (fun r' hr' => hcond r' (List.mem_cons_of_mem _ hr'))
      | some raw =>
          simp only [Option.map_some']
          rw [assocLookup]
          by_cases hk : r.jsonKey = key
          · rw [hk] at hlk
            rw [hcond r (List.mem_cons_self _ _) hk] at hlk
            exact absurd hlk (by simp)
          · rw [if_neg hk]
            exact ih key (fun r' hr' => hcond r' (List.mem_cons_of_mem _ hr'))

theorem assocLookup_filterMap_some (kvs : List (String × JsonVal)) :
    ∀ (reg : List ProviderConfig) (key : String) (r : ProviderConfig) (raw : JsonVal),
      (reg.map ProviderConfig.jsonKey).Nodup →
      r ∈ reg → r.jsonKey = key →
      assocLookup kvs key = some raw →
      assocLookup
        (reg.filterMap
          (fun r => (assocLookup kvs r.jsonKey).map
            (fun raw => (r.jsonKey, some (unmarshalProviderConfig r raw))))) key
      = some (some (unmarshalProviderConfig r raw)) := by
  intro reg
  induction reg with
  | nil => intro key r raw _ hr _ _; exact absurd hr (by simp)
  | cons r0 rest ih =>
      intro key r raw hnd hr hk hlk
      rw [List.map_cons, List.nodup_cons] at hnd
      rw [List.filterMap_cons]
      by_cases h0 : r0.jsonKey = key
      · have hr0 : r = r0 := by
          rcases List.mem_cons.mp hr with h | h
          · exact h
          · exfalso
            apply hnd.1
            rw [h0, ← hk]
            exact List.mem_map.mpr ⟨r, h, rfl⟩
        subst hr0
        rw [h0, hlk]
        simp only [Option.map_some']
        rw [assocLookup, if_pos rfl]
      · have hrr : r ∈ rest := by
          rcases List.mem_cons.mp hr with h | h
          · exact absurd (h ▸ hk) h0
          · exact h
        cases hlk0 : assocLookup kvs r0.jsonKey with
        | none =>
            simp only [Option.map_none']
            exact ih key r raw hnd.2 hrr hk hlk
        | some raw0 =>
            simp only [Option.map_some']
            rw [assocLookup, if_neg h0]
            exact ih key r raw hnd.2 hrr hk hlk

theorem filterMap_keys_sublist (kvs : List (String × JsonVal)) :
    ∀ (reg : List ProviderConfig),
      ((reg.filterMap
          (fun r => (assocLookup kvs r.jsonKey).map
            (fun raw => (r.jsonKey, some (unmarshalProviderConfig r raw))))).map
        Prod.fst).Sublist
        (reg.map ProviderConfig.jsonKey) := by
  intro reg
  induction reg with
  | nil => simp
  | cons r rest ih =>
      rw [List.filterMap_cons, List.map_cons]
      cases hlk : assocLookup kvs r.jsonKey with
      | none =>
          simp only [Option.map_none']
          exact ih.cons _
      | some raw =>
          simp only [Option.map_some', List.map_cons]
          exact ih.cons₂ _

/-! ## C2: the serialisation round trip -/

/-- C2 counterexample: a configuration with one attached provider
configuration whose struct type has no fields, with its provider
registered. `MarshalJSON` skips field-less configurations
(`len(structs.Fields(providerConf)) < 1`), so the deserialised
configuration carries zero provider configurations instead of one. -/
theorem roundtrip_zero_field_counterexample :
    (Configuration.unmarshalJSON [{ jsonKey := "EmptyProv", fields := [] }]
        (Configuration.marshalJSON
          { IndentationSize := 3, PreferredSource := "x",
            providerConfigs :=
              [("EmptyProv", some { jsonKey := "EmptyProv", fields := [] })],
            configFileLocation := "" })).map
      (fun d => d.providerConfigs.length) = some 0
    ∧ (Configuration.providerConfigs
        { IndentationSize := 3, PreferredSource := "x",
          providerConfigs :=
            [("EmptyProv", some { jsonKey := "EmptyProv", fields := [] })],
          configFileLocation := "" }).length = 1 :=
  ⟨rfl, rfl⟩

/-- C2 (amended): deserialising the serialisation of a configuration
reproduces `IndentationSize`, `PreferredSource`, and exactly the
attached provider sub-configurations, each under its self-reported JSON
key, provided every attached configuration is non-nil and has at least
one field (field-less ones are skipped by `MarshalJSON`), is keyed by
its own JSON key, and belongs to a registered provider of the same
shape; the attached and registered JSON keys are pairwise distinct and
distinct from the base field names. -/
theorem marshal_unmarshal_roundtrip (c : Configuration) (registered : List ProviderConfig)
    (hA : ∀ kv ∈ c.providerConfigs, ∃ pc, kv.2 = some pc ∧ kv.1 = pc.jsonKey
            ∧ pc.fields ≠ [] ∧ (pc.fields.map Prod.fst).Nodup
            ∧ ∃ r, r ∈ registered ∧ r.jsonKey = pc.jsonKey
                ∧ r.fields.map Prod.fst = pc.fields.map Prod.fst)
    (hB : (c.providerConfigs.map Prod.fst).Nodup)
    (hC : (registered.map ProviderConfig.jsonKey).Nodup)
    (hD : ∀ r ∈ registered,
        r.jsonKey ≠ "IndentationSize" ∧ r.jsonKey ≠ "PreferredSource") :
    ∃ d, Configuration.unmarshalJSON registered (Configuration.marshalJSON c) = some d
      ∧ d.IndentationSize = c.IndentationSize
      ∧ d.PreferredSource = c.PreferredSource
      ∧ (∀ key, assocLookup d.providerConfigs key
            = assocLookup c.providerConfigs key)
      ∧ (d.providerConfigs.map Prod.fst).Perm (c.providerConfigs.map Prod.fst) := by
  have hAkeys : ∀ kv ∈ c.providerConfigs,
      kv.1 ≠ "IndentationSize" ∧ kv.1 ≠ "PreferredSource" := by
    intro kv hkv
    obtain ⟨pc, hv, hk, hne, hndf, r, hr, hrk, hrf⟩ := hA kv hkv
    exact ⟨by rw [hk, ← hrk]; exact (hD r hr).1,
           by rw [hk, ← hrk]; exact (hD r hr).2⟩
  have hser : Configuration.marshalJSON c
      = JsonVal.obj
          ([("IndentationSize", JsonVal.num c.IndentationSize),
            ("PreferredSource", JsonVal.str c.PreferredSource)]
           ++ c.providerConfigs.map
                (fun kv => (kv.1, JsonVal.obj (optFields kv.2)))) := by
    rw [Configuration.marshalJSON]
    congr 1
    apply marshal_fold
    · intro kv hkv
      obtain ⟨pc, hv, hk, hne, _⟩ := hA kv hkv
      exact ⟨pc, hv, hk, hne⟩
    · intro kv hkv
      rcases hAkeys kv hkv with ⟨h1, h2⟩
      simp [assocLookup, Ne.symm h1, Ne.symm h2]
    · exact hB
  have hlookInd :
      assocLookup
        ([("IndentationSize", JsonVal.num c.IndentationSize),
          ("PreferredSource", JsonVal.str c.PreferredSource)]
         ++ c.providerConfigs.map
              (fun kv => (kv.1, JsonVal.obj (optFields kv.2)))) "IndentationSize"
      = some (JsonVal.num c.IndentationSize) := by
    rw [assocLookup_append]
    simp [assocLookup, Option.or]
  have hlookPref :
      assocLookup
        ([("IndentationSize", JsonVal.num c.IndentationSize),
          ("PreferredSource", JsonVal.str c.PreferredSource)]
         ++ c.providerConfigs.map
              (fun kv => (kv.1, JsonVal.obj (optFields kv.2)))) "PreferredSource"
      = some (JsonVal.str c.PreferredSource) := by
    rw [assocLookup_append]
    simp [assocLookup, Option.or]
  have hlookOther : ∀ key, key ≠ "IndentationSize" → key ≠ "PreferredSource" →
      assocLookup
        ([("IndentationSize", JsonVal.num c.IndentationSize),
          ("PreferredSource", JsonVal.str c.PreferredSource)]
         ++ c.providerConfigs.map
              (fun kv => (kv.1, JsonVal.obj (optFields kv.2)))) key
      = (assocLookup c.providerConfigs key).map (fun v => JsonVal.obj (optFields v)) := by
    intro key h1 h2
    rw [assocLookup_append]
    have hbase0 :
        assocLookup
          [("IndentationSize", JsonVal.num c.IndentationSize),
           ("PreferredSource", JsonVal.str c.PreferredSource)] key = none := by
      simp [assocLookup, Ne.symm h1, Ne.symm h2]
    rw [hbase0]
    rw [assocLookup_map_val (fun v => JsonVal.obj (optFields v)) c.providerConfigs key]
    simp [Option.or]
  have hun : Configuration.unmarshalJSON registered (Configuration.marshalJSON c)
      = some
          { IndentationSize := c.IndentationSize
            PreferredSource := c.PreferredSource
            providerConfigs :=
              registered.filterMap
                (fun r =>
                  (assocLookup
                    ([("IndentationSize", JsonVal.num c.IndentationSize),
                      ("PreferredSource", JsonVal.str c.PreferredSource)]
                     ++ c.providerConfigs.map
                          (fun kv => (kv.1, JsonVal.obj (optFields kv.2)))) r.jsonKey).map
                    (fun raw => (r.jsonKey, some (unmarshalProviderConfig r raw))))
            configFileLocation := "" } := by
    rw [hser]
    simp only [Configuration.unmarshalJSON, hlookInd, hlookPref, Option.bind]
    rw [unmarshal_fold _ registered [] (fun r _ => rfl) hC]
    rw [List.nil_append]
  have hle : ∀ key,
      assocLookup
        (registered.filterMap
          (fun r =>
            (assocLookup
              ([("IndentationSize", JsonVal.num c.IndentationSize),
                ("PreferredSource", JsonVal.str c.PreferredSource)]
               ++ c.providerConfigs.map
                    (fun kv => (kv.1, JsonVal.obj (optFields kv.2)))) r.jsonKey).map
              (fun raw => (r.jsonKey, some (unmarshalProviderConfig r raw))))) key
      = assocLookup c.providerConfigs key := by
    intro key
    cases hlk : assocLookup c.providerConfigs key with
    | none =>
        apply assocLookup_filterMap_none
        intro r hr hkey
        have h1 : key ≠ "IndentationSize" := by rw [← hkey]; exact (hD r hr).1
        have h2 : key ≠ "PreferredSource" := by rw [← hkey]; exact (hD r hr).2
        rw [hlookOther key h1 h2, hlk]
        rfl
    | some v =>
        have hmem := mem_of_assocLookup _ _ _ hlk
        obtain ⟨pc, hv, hk, hne, hndf, r, hr, hrk, hrf⟩ := hA (key, v) hmem
        simp only at hv hk
        have h1 : key ≠ "IndentationSize" := by
          rw [hk, ← hrk]; exact (hD r hr).1
        have h2 : key ≠ "PreferredSource" := by
          rw [hk, ← hrk]; exact (hD r hr).2
        have hser_look :
            assocLookup
              ([("IndentationSize", JsonVal.num c.IndentationSize),
                ("PreferredSource", JsonVal.str c.PreferredSource)]
               ++ c.providerConfigs.map
                    (fun kv => (kv.1, JsonVal.obj (optFields kv.2)))) key
            = some (JsonVal.obj pc.fields) := by
          rw [hlookOther key h1 h2, hlk, hv]
          rfl
        rw [assocLookup_filterMap_some _ registered key r (JsonVal.obj pc.fields)
          hC hr (by rw [hrk, hk]) hser_look]
        rw [unmarshalProviderConfig_self r pc hrk hrf hndf]
        rw [hv]
  refine ⟨_, hun, rfl, rfl, hle, ?_⟩
  have hsub := filterMap_keys_sublist
    ([("IndentationSize", JsonVal.num c.IndentationSize),
      ("PreferredSource", JsonVal.str c.PreferredSource)]
     ++ c.providerConfigs.map (fun kv => (kv.1, JsonVal.obj (optFields kv.2))))
    registered
  have hnodupD := List.Nodup.sublist hsub hC
  apply (List.perm_ext_iff_of_nodup hnodupD hB).mpr
  intro a
  rw [← assocLookup_isSome_iff_mem, ← assocLookup_isSome_iff_mem, hle a]

/-- Witness for C2: one attached Oxford-style provider configuration,
registered with a differently-valued registry copy of the same shape,
survives the round trip. -/
theorem marshal_unmarshal_roundtrip_witness :
    ∃ d, Configuration.unmarshalJSON
        [{ jsonKey := "OxfordDictionary",
           fields := [("AppID", JsonVal.str ""), ("AppKey", JsonVal.str "")] }]
        (Configuration.marshalJSON
          { IndentationSize := 2, PreferredSource := "g",
            providerConfigs :=
              [("OxfordDictionary",
                some { jsonKey := "OxfordDictionary",
                       fields := [("AppID", JsonVal.str "a"),
                                  ("AppKey", JsonVal.str "b")] })],
            configFileLocation := "" }) = some d
      ∧ d.IndentationSize =
          Configuration.IndentationSize
            { IndentationSize := 2, PreferredSource := "g",
              providerConfigs :=
                [("OxfordDictionary",
                  some { jsonKey := "OxfordDictionary",
                         fields := [("AppID", JsonVal.str "a"),
                                    ("AppKey", JsonVal.str "b")] })],
              configFileLocation := "" }
      ∧ d.PreferredSource =
          Configuration.PreferredSource
            { IndentationSize := 2, PreferredSource := "g",
              providerConfigs :=
                [("OxfordDictionary",
                  some { jsonKey := "OxfordDictionary",
                         fields := [("AppID", JsonVal.str "a"),
                                    ("AppKey", JsonVal.str "b")] })],
              configFileLocation := "" }
      ∧ (∀ key, assocLookup d.providerConfigs key
            = assocLookup
                (Configuration.providerConfigs
                  { IndentationSize := 2, PreferredSource := "g",
                    providerConfigs :=
                      [("OxfordDictionary",
                        some { jsonKey := "OxfordDictionary",
                               fields := [("AppID", JsonVal.str "a"),
                                          ("AppKey", JsonVal.str "b")] })],
                    configFileLocation := "" }) key)
      ∧ (d.providerConfigs.map Prod.fst).Perm
          ((Configuration.providerConfigs
              { IndentationSize := 2, PreferredSource := "g",
                providerConfigs :=
                  [("OxfordDictionary",
                    some { jsonKey := "OxfordDictionary",
                           fields := [("AppID", JsonVal.str "a"),
                                      ("AppKey", JsonVal.str "b")] })],
                configFileLocation := "" }).map Prod.fst) :=
  marshal_unmarshal_roundtrip
    { IndentationSize := 2, PreferredSource := "g",
      providerConfigs :=
        [("OxfordDictionary",
          some { jsonKey := "OxfordDictionary",
                 fields := [("AppID", JsonVal.str "a"),
                            ("AppKey", JsonVal.str "b")] })],
      configFileLocation := "" }
    [{ jsonKey := "OxfordDictionary",
       fields := [("AppID", JsonVal.str ""), ("AppKey", JsonVal.str "")] }]
    (by
      intro kv hkv
      rw [List.mem_singleton] at hkv
      subst hkv
      refine ⟨{ jsonKey := "OxfordDictionary",
                fields := [("AppID", JsonVal.str "a"), ("AppKey", JsonVal.str "b")] },
              rfl, rfl, by simp, by decide,
              { jsonKey := "OxfordDictionary",
                fields := [("AppID", JsonVal.str ""), ("AppKey", JsonVal.str "")] },
              List.mem_singleton.mpr rfl, rfl, rfl⟩)
    (by simp)
    (by simp)
    (by
      intro r hr
      rw [List.mem_singleton] at hr
      subst hr
      exact ⟨by decide, by decide⟩)

end Define
